import Mathlib

/-!
Verification of the `tip` interactive terminal utility.

The definitions below are shallow embeddings of the Rust sources:
`src/terminal.rs` (input decoding, escape-aware text utility, prompt
rendering), `src/main.rs` (query model, child command construction,
subprocess supervisor loop, output-buffer reader), and `src/child.rs`
(the droppable child handle whose drop kills and reaps the process).
Bytes are modelled as `Nat`, byte buffers as `List Nat`, and the
stateful loops as explicit state-passing functions or event-trace
generators.
-/

/-! ## Escape-aware text utility (`src/terminal.rs`, `EscapedIter` / `EscapedVec`) -/

/-- `TerminalReader::is_escape_end`: a CSI final byte lies in `0x40..=0x7E`. -/
def is_escape_end (ch : Nat) : Bool := 0x40 ≤ ch && ch ≤ 0x7e

/-- The `in_escape` flag attached to the item that `EscapedIter::next` yields
for byte `ch` when the iterator state is `st`. -/
def escItem (st : Bool) (ch : Nat) : Bool :=
  if ch = 0x1b then true else st

/-- The iterator state after `EscapedIter::next` consumes byte `ch` from
state `st`: `0x1b` enters an escape, and while inside an escape any byte
other than the bracket `0x5b` that is a final byte leaves it. -/
def escNext (st : Bool) (ch : Nat) : Bool :=
  if ch = 0x1b then true
  else if st && ch ≠ 0x5b then (if is_escape_end ch then false else st)
  else st

namespace EscapedVec

/-- The fold inside `EscapedVec::len`, threading the iterator state:
count the items whose `in_escape` flag is false. -/
def lenAux : Bool → List Nat → Nat
  | _, [] => 0
  | st, ch :: t => (if escItem st ch then 0 else 1) + lenAux (escNext st ch) t

/-- `EscapedVec::len`: number of visible (non-escape) bytes. -/
def len (l : List Nat) : Nat := lenAux false l

/-- The loop inside `EscapedVec::cap`: number of leading items consumed
(`real_len`) before the visible count (`len`, accumulated in `acc`)
reaches the budget `cap`; the visible byte that reaches the budget is
itself consumed, and escape bytes never consume budget. -/
def capLenAux (cap : Nat) : Bool → Nat → List Nat → Nat
  | _, _, [] => 0
  | st, acc, ch :: t =>
    if escItem st ch then capLenAux cap (escNext st ch) acc t + 1
    else if cap ≤ acc + 1 then 1
    else capLenAux cap (escNext st ch) (acc + 1) t + 1

/-- `EscapedVec::cap`: the prefix `&self.unescaped[..real_len]`. -/
def cap (l : List Nat) (c : Nat) : List Nat := l.take (capLenAux c false 0 l)

end EscapedVec

/-! ### Spec-side visible-length state machines (for the refinement claim C3)

`specVisibleLen` follows the claim's words: a span starts at a `0x1B`
byte and ends at the first subsequent byte in `0x40..=0x7E` inclusive,
where the `[` immediately following the ESC does not terminate the span.
`specVisibleLenAm` is the amended rule: a span ends at the first
subsequent byte in `0x40..=0x7E` other than `[` — every `[` inside an
escape is part of it, not only the one immediately following ESC. -/

/-- State of the spec-side span recognizer: outside any span, just after
the opening ESC, or inside the span body. -/
inductive EscSpecState
  | outside
  | sawEsc
  | inEsc
deriving DecidableEq

/-- One step of the claim's span rule: the result is the next state and
whether the consumed byte lies inside a span. Only the `[` immediately
following the ESC is exempt from terminating the span. -/
def specStep : EscSpecState → Nat → EscSpecState × Bool
  | .outside, ch => if ch = 0x1b then (.sawEsc, true) else (.outside, false)
  | .sawEsc, ch =>
    if ch = 0x5b then (.inEsc, true)
    else if ch = 0x1b then (.sawEsc, true)
    else if is_escape_end ch then (.outside, true)
    else (.inEsc, true)
  | .inEsc, ch =>
    if is_escape_end ch then (.outside, true)
    else (.inEsc, true)

/-- Count of bytes outside spans, per the claim's rule, from a given state. -/
def specVisAux : EscSpecState → List Nat → Nat
  | _, [] => 0
  | s, ch :: t => (if (specStep s ch).2 then 0 else 1) + specVisAux (specStep s ch).1 t

/-- The claim's visible length: bytes outside every span where only the
`[` immediately following the ESC fails to terminate the span. -/
def specVisibleLen (l : List Nat) : Nat := specVisAux .outside l

/-- One step of the amended span rule: a span ends at the first byte in
`0x40..=0x7E` other than `[`; every `[` inside an escape is skipped. -/
def specStepAm : EscSpecState → Nat → EscSpecState × Bool
  | .outside, ch => if ch = 0x1b then (.sawEsc, true) else (.outside, false)
  | .sawEsc, ch =>
    if ch = 0x5b then (.inEsc, true)
    else if ch = 0x1b then (.sawEsc, true)
    else if is_escape_end ch then (.outside, true)
    else (.inEsc, true)
  | .inEsc, ch =>
    if ch = 0x5b then (.inEsc, true)
    else if ch = 0x1b then (.inEsc, true)
    else if is_escape_end ch then (.outside, true)
    else (.inEsc, true)

/-- Count of bytes outside spans, per the amended rule, from a given state. -/
def specVisAuxAm : EscSpecState → List Nat → Nat
  | _, [] => 0
  | s, ch :: t => (if (specStepAm s ch).2 then 0 else 1) + specVisAuxAm (specStepAm s ch).1 t

/-- The amended visible length: bytes outside every span whose terminator
is the first byte in `0x40..=0x7E` other than `[`. -/
def specVisibleLenAm (l : List Nat) : Nat := specVisAuxAm .outside l

/-- The repository's own unit test `terminal::tests::escaped_vec`:
the colorized bytes of `\x1b[0m\x1b[35mREADME.` have visible length 7
and capping at 4 keeps both escapes and the four visible bytes. -/
theorem escaped_vec_repo_test :
    EscapedVec.len [0x1b, 0x5b, 0x30, 0x6d, 0x1b, 0x5b, 0x33, 0x35, 0x6d,
      0x52, 0x45, 0x41, 0x44, 0x4d, 0x45, 0x2e] = 7
    ∧ EscapedVec.cap [0x1b, 0x5b, 0x30, 0x6d, 0x1b, 0x5b, 0x33, 0x35, 0x6d,
      0x52, 0x45, 0x41, 0x44, 0x4d, 0x45, 0x2e] 4 =
      [0x1b, 0x5b, 0x30, 0x6d, 0x1b, 0x5b, 0x33, 0x35, 0x6d,
        0x52, 0x45, 0x41, 0x44] := by decide

/-- Helper: the visible count of the consumed prefix, together with the
budget already used, never exceeds the budget (as long as budget is not
yet exhausted on entry). -/
theorem capLenAux_vis_le (c : Nat) :
    ∀ (l : List Nat) (st : Bool) (acc : Nat), acc < c →
      acc + EscapedVec.lenAux st (l.take (EscapedVec.capLenAux c st acc l)) ≤ c := by
  intro l
  induction l with
  | nil =>
    intro st acc h
    simp only [EscapedVec.capLenAux, List.take_nil, EscapedVec.lenAux]
    omega
  | cons ch t ih =>
    intro st acc h
    cases hitem : escItem st ch with
    | true =>
      have hih := ih (escNext st ch) acc h
      simp only [EscapedVec.capLenAux, hitem, if_true, List.take_succ_cons,
        EscapedVec.lenAux, if_pos hitem]
      omega
    | false =>
      by_cases hcap : c ≤ acc + 1
      · simp only [EscapedVec.capLenAux, hitem, Bool.false_eq_true, if_false, if_pos hcap,
          List.take_succ_cons, List.take_zero, EscapedVec.lenAux, hitem]
        omega
      · have hih := ih (escNext st ch) (acc + 1) (by omega)
        simp only [EscapedVec.capLenAux, hitem, Bool.false_eq_true, if_false, if_neg hcap,
          List.take_succ_cons, EscapedVec.lenAux]
        omega

/-- Helper: if the remaining budget strictly exceeds the visible length of
the rest of the input, the `cap` loop consumes the whole input. -/
theorem capLenAux_all (c : Nat) :
    ∀ (l : List Nat) (st : Bool) (acc : Nat), acc + EscapedVec.lenAux st l < c →
      EscapedVec.capLenAux c st acc l = l.length := by
  intro l
  induction l with
  | nil => intro st acc _; simp [EscapedVec.capLenAux]
  | cons ch t ih =>
    intro st acc h
    cases hitem : escItem st ch with
    | true =>
      simp only [EscapedVec.lenAux, if_pos hitem] at h
      simp only [EscapedVec.capLenAux, hitem, if_true, List.length_cons]
      have := ih (escNext st ch) acc (by omega)
      omega
    | false =>
      simp only [EscapedVec.lenAux, hitem, Bool.false_eq_true, if_false] at h
      have hcap : ¬ c ≤ acc + 1 := by omega
      simp only [EscapedVec.capLenAux, hitem, Bool.false_eq_true, if_false, if_neg hcap,
        List.length_cons]
      have := ih (escNext st ch) (acc + 1) (by omega)
      omega

/-- C2 (counterexample): the claim fails as stated. At budget `N = 0` on
the single visible byte `a`, `cap` still keeps one visible byte, so the
result's visible length exceeds the budget; and at `N = 1` on `a` followed
by a lone ESC, `N` equals the visible length yet `cap` drops the trailing
escape byte, so the whole input is not returned. -/
theorem escapedVec_cap_claim_counterexample :
    ¬ (EscapedVec.len (EscapedVec.cap [0x61] 0) ≤ 0)
    ∧ (EscapedVec.len [0x61, 0x1b] ≤ 1
        ∧ ¬ (EscapedVec.cap [0x61, 0x1b] 1 = [0x61, 0x1b])) := by decide

/-- C2 (amended): the escape-aware truncator returns a prefix of the
input; for every positive budget `N` the prefix's visible byte count is
at most `N` (at `N = 0` one visible byte may still be kept); and whenever
`N` strictly exceeds the input's visible length the truncator returns the
whole input unchanged (at `N` equal to the visible length, the bytes after
the `N`-th visible byte may be dropped). -/
theorem escapedVec_cap_amended (l : List Nat) (n : Nat) :
    (∃ k, EscapedVec.cap l n = l.take k)
    ∧ (1 ≤ n → EscapedVec.len (EscapedVec.cap l n) ≤ n)
    ∧ (EscapedVec.len l < n → EscapedVec.cap l n = l) := by
  refine ⟨⟨EscapedVec.capLenAux n false 0 l, rfl⟩, ?_, ?_⟩
  · intro hn
    have := capLenAux_vis_le n l false 0 (by omega)
    simpa [EscapedVec.cap, EscapedVec.len] using this
  · intro hlt
    have hall : EscapedVec.capLenAux n false 0 l = l.length :=
      capLenAux_all n l false 0 (by simpa [EscapedVec.len] using hlt)
    simp [EscapedVec.cap, hall]

/-- C2 (witness for the amended theorem): on `a ESC [ m` with budget 1 the
visible length of the truncation is at most 1, and on `a` with budget 5
the whole input is returned. -/
theorem escapedVec_cap_amended_witness :
    EscapedVec.len (EscapedVec.cap [0x61, 0x1b, 0x5b, 0x6d] 1) ≤ 1
    ∧ EscapedVec.cap [0x61] 5 = [0x61] :=
  ⟨(escapedVec_cap_amended [0x61, 0x1b, 0x5b, 0x6d] 1).2.1 (by decide),
    (escapedVec_cap_amended [0x61] 5).2.2 (by decide)⟩

/-- C3 (counterexample): on `ESC [ [ a` the code treats every `[` inside
an escape as part of it, so its visible length is 0; under the claim's
rule only the `[` immediately following ESC is exempt, the second `[`
(which lies in `0x40..=0x7E`) terminates the span, and the trailing `a`
is visible, giving length 1. -/
theorem escapedIter_claim_counterexample :
    EscapedVec.len [0x1b, 0x5b, 0x5b, 0x61] = 0
    ∧ specVisibleLen [0x1b, 0x5b, 0x5b, 0x61] = 1
    ∧ ¬ (EscapedVec.len [0x1b, 0x5b, 0x5b, 0x61]
          = specVisibleLen [0x1b, 0x5b, 0x5b, 0x61]) := by decide

/-- Helper for C3: the code's two-state escape recognizer agrees with the
amended three-state span recognizer, relating `in_escape = false` to
`outside` and `in_escape = true` to both `sawEsc` and `inEsc`. -/
theorem lenAux_eq_specVisAuxAm :
    ∀ l : List Nat,
      EscapedVec.lenAux false l = specVisAuxAm .outside l
      ∧ EscapedVec.lenAux true l = specVisAuxAm .sawEsc l
      ∧ EscapedVec.lenAux true l = specVisAuxAm .inEsc l := by
  intro l
  induction l with
  | nil => exact ⟨rfl, rfl, rfl⟩
  | cons ch t ih =>
    obtain ⟨iho, ihs, ihi⟩ := ih
    refine ⟨?_, ?_, ?_⟩
    · by_cases h27 : ch = 0x1b
      · simp [EscapedVec.lenAux, specVisAuxAm, specStepAm, escItem, escNext, h27, ihs]
      · simp [EscapedVec.lenAux, specVisAuxAm, specStepAm, escItem, escNext, h27, iho]
    · by_cases h27 : ch = 0x1b
      · simp [EscapedVec.lenAux, specVisAuxAm, specStepAm, escItem, escNext, h27, ihs]
      · by_cases h91 : ch = 0x5b
        · simp [EscapedVec.lenAux, specVisAuxAm, specStepAm, escItem, escNext, h27, h91, ihi]
        · by_cases hend : is_escape_end ch
          · simp [EscapedVec.lenAux, specVisAuxAm, specStepAm, escItem, escNext,
              h27, h91, hend, iho]
          · simp [EscapedVec.lenAux, specVisAuxAm, specStepAm, escItem, escNext,
              h27, h91, hend, ihi]
    · by_cases h27 : ch = 0x1b
      · simp [EscapedVec.lenAux, specVisAuxAm, specStepAm, escItem, escNext, h27, ihi]
      · by_cases h91 : ch = 0x5b
        · simp [EscapedVec.lenAux, specVisAuxAm, specStepAm, escItem, escNext, h27, h91, ihi]
        · by_cases hend : is_escape_end ch
          · simp [EscapedVec.lenAux, specVisAuxAm, specStepAm, escItem, escNext,
              h27, h91, hend, iho]
          · simp [EscapedVec.lenAux, specVisAuxAm, specStepAm, escItem, escNext,
              h27, h91, hend, ihi]

/-- C3 (amended): for every byte sequence, the code's escape-aware visible
length equals the count of bytes outside every span that starts at a
`0x1B` byte and ends at the first subsequent byte in `0x40..=0x7E` other
than `[` — every `[` inside an escape is treated as part of it, not only
the one immediately following the ESC. -/
theorem escapedIter_len_amended (l : List Nat) :
    EscapedVec.len l = specVisibleLenAm l :=
  (lenAux_eq_specVisAuxAm l).1

/-! ## Terminal input events (`src/terminal.rs`) -/

/-- `TerminalEscape`: decoded escape sequences. -/
inductive TerminalEscape
  | LeftArrow
  | RightArrow
  | CtrlLeftArrow
  | CtrlRightArrow
  | Timeout
deriving DecidableEq

/-- `TerminalInput`: decoded input events; bytes are modelled as `Nat`. -/
inductive TerminalInput
  | Printable (b : Nat)
  | Ctrl (b : Nat)
  | Escape (e : TerminalEscape)
  | Delete
deriving DecidableEq

/-! ## Query model (`src/main.rs`, `UiPrompt`) -/

/-- `UiPrompt`: the editable query buffer and cursor (the channel sender
is modelled by returning the emitted string from each mutation). -/
structure UiPrompt where
  cursor_index : Nat
  query : List Char
deriving DecidableEq

/-- `UiPrompt::new`: empty query, cursor at 0. -/
def UiPrompt.new : UiPrompt := ⟨0, []⟩

/-- `UiPrompt::get_string`: the characters collected into a string,
modelled as the character list itself. -/
def UiPrompt.get_string (p : UiPrompt) : List Char := p.query

/-- `UiPrompt::move_cursor`: add `columns` to the cursor as a signed
integer and clamp to `[0, len]`; nothing is sent. -/
def UiPrompt.move_cursor (p : UiPrompt) (columns : Int) : UiPrompt :=
  ⟨(min (max ((p.cursor_index : Int) + columns) 0) (p.query.length : Int)).toNat, p.query⟩

/-- `UiPrompt::add_character`: insert at the cursor, advance the cursor,
then send the new query string; the sent string is the second component. -/
def UiPrompt.add_character (p : UiPrompt) (ch : Char) : UiPrompt × List Char :=
  let p' : UiPrompt := ⟨p.cursor_index + 1, p.query.insertIdx p.cursor_index ch⟩
  (p', p'.get_string)

/-- `UiPrompt::delete_character`: no-op when the cursor is at 0;
otherwise remove the character before the cursor, retreat the cursor,
and send the new query string. -/
def UiPrompt.delete_character (p : UiPrompt) : UiPrompt × Option (List Char) :=
  if p.cursor_index = 0 then (p, none)
  else
    let p' : UiPrompt := ⟨p.cursor_index - 1, p.query.eraseIdx (p.cursor_index - 1)⟩
    (p', some p'.get_string)

/-- `<UiPrompt as ComponentPrompt>::input`: dispatch a terminal input
event to the query model; the second component is the string sent on the
query channel, when any. -/
def UiPrompt.input (p : UiPrompt) : TerminalInput → UiPrompt × Option (List Char)
  | .Delete => p.delete_character
  | .Printable ch =>
    let r := p.add_character (Char.ofNat ch)
    (r.1, some r.2)
  | .Escape .LeftArrow => (p.move_cursor (-1), none)
  | .Escape .RightArrow => (p.move_cursor 1, none)
  | .Escape _ => (p, none)
  | .Ctrl _ => (p, none)

/-- One mutation of the query model, as named by the spec's operation
list: insert, delete, or cursor move. -/
inductive PromptOp
  | insert (ch : Char)
  | delete
  | move (columns : Int)

/-- Apply one operation; the second component is the emitted string, if
the operation sent one. -/
def UiPrompt.stepOp (p : UiPrompt) : PromptOp → UiPrompt × Option (List Char)
  | .insert ch =>
    let r := p.add_character ch
    (r.1, some r.2)
  | .delete => p.delete_character
  | .move c => (p.move_cursor c, none)

/-- Apply a sequence of operations, keeping only the final state. -/
def UiPrompt.applyOps (p : UiPrompt) : List PromptOp → UiPrompt
  | [] => p
  | op :: ops => UiPrompt.applyOps (p.stepOp op).1 ops

/-- Helper: one step preserves the cursor-in-bounds invariant. -/
theorem UiPrompt.stepOp_inv (p : UiPrompt) (op : PromptOp)
    (h : p.cursor_index ≤ p.query.length) :
    (p.stepOp op).1.cursor_index ≤ (p.stepOp op).1.query.length := by
  cases op with
  | insert ch =>
    simp only [UiPrompt.stepOp, UiPrompt.add_character]
    rw [List.length_insertIdx _ _ h]
    omega
  | delete =>
    simp only [UiPrompt.stepOp, UiPrompt.delete_character]
    split
    · simpa
    · rename_i h0
      simp only
      have := List.length_eraseIdx_add_one
        (show p.cursor_index - 1 < p.query.length by omega)
      omega
  | move c =>
    simp only [UiPrompt.stepOp, UiPrompt.move_cursor]
    omega

/-- Helper: the invariant holds for the state reached by any operation
sequence applied to a state satisfying it. -/
theorem UiPrompt.applyOps_inv :
    ∀ (ops : List PromptOp) (p : UiPrompt), p.cursor_index ≤ p.query.length →
      (p.applyOps ops).cursor_index ≤ (p.applyOps ops).query.length := by
  intro ops
  induction ops with
  | nil => intro p h; exact h
  | cons op ops ih =>
    intro p h
    exact ih _ (UiPrompt.stepOp_inv p op h)

/-- C7: starting from the empty query model, after any sequence of
insert, delete, and move operations the cursor index lies in `[0, len]`,
and the string emitted by any further operation (when one is emitted)
equals the buffer contents at the moment of emission. -/
theorem uiPrompt_cursor_inv_and_emission (ops : List PromptOp) (op : PromptOp) :
    (UiPrompt.new.applyOps ops).cursor_index ≤ (UiPrompt.new.applyOps ops).query.length
    ∧ ((UiPrompt.new.applyOps ops).stepOp op).2.getD
        (((UiPrompt.new.applyOps ops).stepOp op).1.query)
      = ((UiPrompt.new.applyOps ops).stepOp op).1.query := by
  constructor
  · exact UiPrompt.applyOps_inv ops UiPrompt.new (by simp [UiPrompt.new])
  · cases op with
    | insert ch => rfl
    | delete =>
      simp only [UiPrompt.stepOp, UiPrompt.delete_character]
      split
      · rfl
      · rfl
    | move c => rfl

/-- C10: cursor movement sends nothing on the query channel, a delete
with the cursor at 0 returns the state unchanged without sending, and
only an insert or a delete with positive cursor emit a query string; in
particular the left and right arrow keys (which only move the cursor)
never send, so they never restart the supervised child. -/
theorem uiPrompt_move_delete_frame_effect (p : UiPrompt) (d : Int) (ch : Char) :
    (p.stepOp (.move d)).2 = none
    ∧ (p.input (.Escape .LeftArrow)).2 = none
    ∧ (p.input (.Escape .RightArrow)).2 = none
    ∧ (p.cursor_index = 0 → p.stepOp .delete = (p, none))
    ∧ ((p.stepOp (.insert ch)).2).isSome = true
    ∧ (0 < p.cursor_index → ((p.stepOp .delete).2).isSome = true) := by
  refine ⟨rfl, rfl, rfl, ?_, rfl, ?_⟩
  · intro h0
    simp [UiPrompt.stepOp, UiPrompt.delete_character, h0]
  · intro hpos
    simp [UiPrompt.stepOp, UiPrompt.delete_character, Nat.pos_iff_ne_zero.mp hpos]

/-- C10 (witness): at the empty initial state a delete returns unchanged
with no emission, and at cursor 1 over `a` a delete emits. -/
theorem uiPrompt_move_delete_frame_effect_witness :
    (UiPrompt.new.stepOp .delete = (UiPrompt.new, none))
    ∧ (((UiPrompt.mk 1 [Char.ofNat 97]).stepOp .delete).2).isSome = true :=
  ⟨(uiPrompt_move_delete_frame_effect UiPrompt.new 0 (Char.ofNat 97)).2.2.2.1 rfl,
    (uiPrompt_move_delete_frame_effect (UiPrompt.mk 1 [Char.ofNat 97]) 0
      (Char.ofNat 97)).2.2.2.2.2 (by decide)⟩

/-! ## Input decoding (`src/terminal.rs`, `TerminalReader`)

The tty is modelled as the data the reader consumes: the first byte read
by `read_input` (`none` when the read returns no bytes), the outcome of
the 50 ms poll performed after an ESC (`none` when the poll times out),
and the list of bytes available to the CSI accumulation loop. -/

/-- Failures of the reader: end of file inside an escape, an unexpected
byte after ESC, and the unimplemented reserved introducer bytes. -/
inductive ReadErr
  | eof
  | unexpected (b : Nat)
  | unimplemented
deriving DecidableEq

/-- `TerminalReader::read_escape_to_end`'s loop: push each byte onto the
accumulated string until a final byte in `0x40..=0x7E` (inclusive) is
consumed; return the accumulated string and the unread rest. -/
def read_escape_to_end_aux (acc : String) : List Nat → Except ReadErr (String × List Nat)
  | [] => .error .eof
  | b :: rest =>
    if is_escape_end b then .ok (acc.push (Char.ofNat b), rest)
    else read_escape_to_end_aux (acc.push (Char.ofNat b)) rest

/-- `TerminalReader::read_escape`: on poll timeout yield `Timeout`;
otherwise the polled byte must be `[`, then the accumulated CSI body is
mapped to an arrow event or silently dropped. -/
def read_escape (poll : Option Nat) (rest : List Nat) :
    Except ReadErr (Option TerminalEscape × List Nat) :=
  match poll with
  | none => .ok (some .Timeout, rest)
  | some next =>
    if next ≠ 0x5b then .error (.unexpected next)
    else
      match read_escape_to_end_aux "" rest with
      | .error e => .error e
      | .ok (esc, rest') =>
        .ok ((if esc = "D" then some TerminalEscape.LeftArrow
          else if esc = "C" then some TerminalEscape.RightArrow
          else if esc = "1;5D" then some TerminalEscape.CtrlLeftArrow
          else if esc = "1;5C" then some TerminalEscape.CtrlRightArrow
          else none), rest')

/-- `TerminalReader::read_input`: decode one input event from the first
byte read (`none` when the tty read returns no bytes). -/
def read_input (first : Option Nat) (poll : Option Nat) (rest : List Nat) :
    Except ReadErr (Option TerminalInput × List Nat) :=
  match first with
  | none => .ok (none, rest)
  | some b =>
    if b = 0x1b then
      match read_escape poll rest with
      | .error e => .error e
      | .ok (esc, rest') => .ok (esc.map TerminalInput.Escape, rest')
    else if b = 0x9b ∨ b = 0x90 ∨ b = 0x9d then .error .unimplemented
    else if b = 0x7f then .ok (some .Delete, rest)
    else if 1 ≤ b ∧ b ≤ 26 then .ok (some (.Ctrl (97 + b - 1)), rest)
    else .ok (some (.Printable b), rest)

/-- The claim's mapping from an accumulated CSI body to the emitted
input event: `D`, `C`, `1;5D`, `1;5C` are the arrows, anything else is
consumed with no event. -/
def csiEventOfBody (body : String) : Option TerminalInput :=
  if body = "D" then some (TerminalInput.Escape .LeftArrow)
  else if body = "C" then some (TerminalInput.Escape .RightArrow)
  else if body = "1;5D" then some (TerminalInput.Escape .CtrlLeftArrow)
  else if body = "1;5C" then some (TerminalInput.Escape .CtrlRightArrow)
  else none

/-- Helper for C8: the CSI accumulation loop consumes exactly the bytes
up to and including the first final byte, pushing them onto the
accumulator in order, and leaves the rest unread. -/
theorem read_escape_to_end_aux_spec :
    ∀ (pre : List Nat) (f : Nat) (rest : List Nat) (acc : String),
      (∀ x ∈ pre, is_escape_end x = false) → is_escape_end f = true →
      read_escape_to_end_aux acc (pre ++ f :: rest)
        = .ok ((pre ++ [f]).foldl (fun s b => s.push (Char.ofNat b)) acc, rest) := by
  intro pre
  induction pre with
  | nil =>
    intro f rest acc _ hf
    simp [read_escape_to_end_aux, hf]
  | cons b pre ih =>
    intro f rest acc hpre hf
    have hb : is_escape_end b = false := hpre b (by simp)
    simp only [List.cons_append, read_escape_to_end_aux, hb, Bool.false_eq_true, if_false,
      List.foldl_cons]
    exact ih f rest (acc.push (Char.ofNat b)) (fun x hx => hpre x (by simp [hx])) hf

/-- Helper for C8: mapping the `Escape` constructor over the code's CSI
body table gives the claim's table. -/
theorem map_escape_csi_table (s : String) :
    Option.map TerminalInput.Escape
      (if s = "D" then some TerminalEscape.LeftArrow
        else if s = "C" then some TerminalEscape.RightArrow
        else if s = "1;5D" then some TerminalEscape.CtrlLeftArrow
        else if s = "1;5C" then some TerminalEscape.CtrlRightArrow
        else none) = csiEventOfBody s := by
  unfold csiEventOfBody
  split_ifs <;> rfl

/-- C8: input decoding maps byte `0x7F` to `Delete`, a byte in
`0x01..=0x1A` to `Ctrl (b - 1 + 97)`, any other non-ESC non-reserved
byte to `Printable`; after an ESC a poll timeout yields
`Escape Timeout`; and an ESC-`[` CSI whose accumulated body is `D`,
`C`, `1;5D`, or `1;5C` yields the corresponding arrow event, any other
body being consumed with no event emitted. -/
theorem readInput_decoding (b : Nat) (poll : Option Nat) (rest pre : List Nat) (f : Nat) :
    (read_input (some 0x7f) poll rest = .ok (some .Delete, rest))
    ∧ (1 ≤ b → b ≤ 26 →
        read_input (some b) poll rest = .ok (some (.Ctrl (b - 1 + 97)), rest))
    ∧ (b ≠ 0x1b → b ≠ 0x9b → b ≠ 0x90 → b ≠ 0x9d → b ≠ 0x7f → ¬ (1 ≤ b ∧ b ≤ 26) →
        read_input (some b) poll rest = .ok (some (.Printable b), rest))
    ∧ (read_input (some 0x1b) none rest = .ok (some (.Escape .Timeout), rest))
    ∧ ((∀ x ∈ pre, is_escape_end x = false) → is_escape_end f = true →
        read_input (some 0x1b) (some 0x5b) (pre ++ f :: rest)
          = .ok (csiEventOfBody
              ((pre ++ [f]).foldl (fun s c => s.push (Char.ofNat c)) ""), rest)) := by
  refine ⟨rfl, ?_, ?_, rfl, ?_⟩
  · intro h1 h26
    have h27 : ¬ b = 0x1b := by omega
    have hres : ¬ (b = 0x9b ∨ b = 0x90 ∨ b = 0x9d) := by omega
    have h7f : ¬ b = 0x7f := by omega
    have hc : 1 ≤ b ∧ b ≤ 26 := ⟨h1, h26⟩
    simp only [read_input, if_neg h27, if_neg hres, if_neg h7f, if_pos hc]
    have : 97 + b - 1 = b - 1 + 97 := by omega
    rw [this]
  · intro h27 h9b h90 h9d h7f hc
    simp only [read_input, if_neg h27, if_neg (show ¬ (b = 0x9b ∨ b = 0x90 ∨ b = 0x9d) by
      simp [h9b, h90, h9d]), if_neg h7f, if_neg hc]
  · intro hpre hf
    have haux := read_escape_to_end_aux_spec pre f rest "" hpre hf
    simp only [read_input, if_pos rfl, read_escape, ne_eq, not_true_eq_false, if_false, haux,
      map_escape_csi_table]
    simp

/-- C8 (witness): concrete decodings — `0x7F` is Delete, `0x02` is
Ctrl-b, `0x78` is printable `x`, ESC then timeout is a bare escape, and
the CSI bodies `1;5D` and `x` give ctrl-left-arrow and nothing. -/
theorem readInput_decoding_witness :
    read_input (some 0x7f) none [] = .ok (some .Delete, [])
    ∧ read_input (some 2) none [] = .ok (some (.Ctrl 98), [])
    ∧ read_input (some 0x78) none [] = .ok (some (.Printable 0x78), [])
    ∧ read_input (some 0x1b) none [] = .ok (some (.Escape .Timeout), [])
    ∧ read_input (some 0x1b) (some 0x5b) [0x31, 0x3b, 0x35, 0x44]
        = .ok (some (.Escape .CtrlLeftArrow), [])
    ∧ read_input (some 0x1b) (some 0x5b) [0x78] = .ok (none, []) := by
  refine ⟨(readInput_decoding 2 none [] [] 64).1,
    (readInput_decoding 2 none [] [] 64).2.1 (by decide) (by decide),
    (readInput_decoding 0x78 none [] [] 64).2.2.1 (by decide) (by decide) (by decide)
      (by decide) (by decide) (by decide),
    (readInput_decoding 2 none [] [] 64).2.2.2.1, ?_, ?_⟩
  · have h := (readInput_decoding 2 none [] [0x31, 0x3b, 0x35] 0x44).2.2.2.2
      (by decide) (by decide)
    rw [show ([0x31, 0x3b, 0x35, 0x44] : List Nat) = [0x31, 0x3b, 0x35] ++ 0x44 :: [] from rfl,
      h]
    rfl
  · have h := (readInput_decoding 2 none [] ([] : List Nat) 0x78).2.2.2.2
      (by decide) (by decide)
    rw [show ([0x78] : List Nat) = [] ++ 0x78 :: [] from rfl, h]
    rfl

/-! ## Prompt rendering (`src/terminal.rs`, `TerminalRenderer`) -/

/-- `TerminalRenderer::window_str`: when the cursor index is strictly
below the window size, the window is the slice `source[..min(size, len)]`;
otherwise it is `source[(index - size)..index]`. -/
def window_str (source : List Char) (size index : Nat) : List Char :=
  if index < size then source.take (min size source.length)
  else (source.drop (index - size)).take (index - (index - size))

/-- The observable output of `TerminalRenderer::render_component_prompt`:
the bytes written for the prompt line and the recorded cursor position. -/
structure PromptRender where
  written : List Char
  cursor_line : Nat
  cursor_col : Nat
deriving DecidableEq

/-- `TerminalRenderer::render_component_prompt`: write the window of the
query sized to the full column count at the cursor, and record cursor
line 1, column `cursor_index + 1`. -/
def render_component_prompt (query : List Char) (cursor_index cols : Nat) : PromptRender :=
  ⟨window_str query cols cursor_index, 1, cursor_index + 1⟩

/-- C6 (counterexample): with query `abc`, cursor 3 and 10 columns, the
code writes `abc` (windowed to the full 10 columns, with no chevron) and
records cursor column 4, while the claim demands a leading chevron with
a window of `cols - 2` and cursor column `3 + 2 + 1 = 6`. -/
theorem renderPrompt_claim_counterexample :
    render_component_prompt [Char.ofNat 97, Char.ofNat 98, Char.ofNat 99] 3 10
      ≠ ⟨[Char.ofNat 62, Char.ofNat 32]
          ++ window_str [Char.ofNat 97, Char.ofNat 98, Char.ofNat 99] (10 - 2) 3,
        1, 3 + 2 + 1⟩ := by decide

/-- C6 (amended): the rendered prompt line is exactly the window of the
query sized to the terminal's full column count, with no chevron: when
the cursor index is strictly below `cols` the window is the query from
index 0 to `min cols len`, otherwise it is the characters
`[cursor - cols, cursor)`; the window never exceeds `cols` characters,
and the recorded cursor position is line 1, column `cursor_index + 1`. -/
theorem renderPrompt_amended (query : List Char) (cursor_index cols : Nat) :
    (render_component_prompt query cursor_index cols).cursor_line = 1
    ∧ (render_component_prompt query cursor_index cols).cursor_col = cursor_index + 1
    ∧ (cursor_index < cols →
        (render_component_prompt query cursor_index cols).written
          = query.take (min cols query.length))
    ∧ (cols ≤ cursor_index →
        (render_component_prompt query cursor_index cols).written
          = (query.drop (cursor_index - cols)).take cols)
    ∧ (render_component_prompt query cursor_index cols).written.length ≤ cols := by
  refine ⟨rfl, rfl, ?_, ?_, ?_⟩
  · intro hlt
    simp [render_component_prompt, window_str, hlt]
  · intro hge
    have h : cursor_index - (cursor_index - cols) = cols := by omega
    simp [render_component_prompt, window_str, Nat.not_lt.mpr hge, h]
  · simp only [render_component_prompt, window_str]
    split
    · simp only [List.length_take]
      omega
    · rename_i hge
      simp only [List.length_take]
      omega

/-- C6 (witness for the amended theorem): with query `abc`, cursor 3 and
10 columns the written line is the whole query; with cursor 3 and 2
columns it is the two characters before the cursor; the recorded column
is 4 in both cases. -/
theorem renderPrompt_amended_witness :
    (render_component_prompt [Char.ofNat 97, Char.ofNat 98, Char.ofNat 99] 3 10).written
      = [Char.ofNat 97, Char.ofNat 98, Char.ofNat 99]
    ∧ (render_component_prompt [Char.ofNat 97, Char.ofNat 98, Char.ofNat 99] 3 2).written
      = [Char.ofNat 98, Char.ofNat 99]
    ∧ (render_component_prompt [Char.ofNat 97, Char.ofNat 98, Char.ofNat 99] 3 10).cursor_col
      = 4 := by
  refine ⟨?_, ?_, (renderPrompt_amended [Char.ofNat 97, Char.ofNat 98, Char.ofNat 99] 3 10).2.1⟩
  · have h := (renderPrompt_amended [Char.ofNat 97, Char.ofNat 98, Char.ofNat 99] 3 10).2.2.1
      (by decide)
    rw [h]
    decide
  · have h := (renderPrompt_amended [Char.ofNat 97, Char.ofNat 98, Char.ofNat 99] 3 2).2.2.2.1
      (by decide)
    rw [h]
    decide

/-! ## Child command construction (`src/main.rs`, `create_command`) -/

/-- The three stdio dispositions `create_command` uses; `inherit` is the
builder's default before it is overridden. -/
inductive Stdio
  | piped
  | null
  | inherit
deriving DecidableEq

/-- The observable configuration of a `process::Command`. -/
structure Command where
  program : String
  args : List String
  stdin : Stdio
  stdout : Stdio
  stderr : Stdio
deriving DecidableEq

/-- `process::Command::new`: no arguments, all stdio inherited. -/
def Command.new (program : String) : Command := ⟨program, [], .inherit, .inherit, .inherit⟩

/-- `Command::arg`: append one argument. -/
def Command.arg (c : Command) (a : String) : Command :=
  ⟨c.program, c.args ++ [a], c.stdin, c.stdout, c.stderr⟩

/-- `Command::args`: append a list of arguments. -/
def Command.addArgs (c : Command) (as : List String) : Command :=
  ⟨c.program, c.args ++ as, c.stdin, c.stdout, c.stderr⟩

/-- `Command::stdin`: set the stdin disposition. -/
def Command.setStdin (c : Command) (s : Stdio) : Command :=
  ⟨c.program, c.args, s, c.stdout, c.stderr⟩

/-- `Command::stdout`: set the stdout disposition. -/
def Command.setStdout (c : Command) (s : Stdio) : Command :=
  ⟨c.program, c.args, c.stdin, s, c.stderr⟩

/-- `Command::stderr`: set the stderr disposition. -/
def Command.setStderr (c : Command) (s : Stdio) : Command :=
  ⟨c.program, c.args, c.stdin, c.stdout, s⟩

/-- `create_command`: build the child command from the original command
name and argument vector, the current query, and the optionally captured
stdin bytes. -/
def create_command (cmd : String) (args : List String) (query : String)
    (input : Option (List Nat)) : Command :=
  let command := ((((Command.new cmd).addArgs args).setStdin
    (if input.isSome then Stdio.piped else Stdio.null)).setStdout Stdio.piped).setStderr
    Stdio.piped
  if query.isEmpty = false then command.arg query else command

/-- C9: the constructed child command pipes stdin exactly when captured
stdin bytes were provided and otherwise uses the null device, always
pipes stdout and stderr, and appends the query as the final argument if
and only if it is non-empty — an empty query reproduces the command as
originally invoked. -/
theorem createCommand_spec (cmd : String) (args : List String) (query : String)
    (input : Option (List Nat)) :
    (create_command cmd args query input).program = cmd
    ∧ (create_command cmd args query input).stdin
        = (if input.isSome then Stdio.piped else Stdio.null)
    ∧ (create_command cmd args query input).stdout = Stdio.piped
    ∧ (create_command cmd args query input).stderr = Stdio.piped
    ∧ (create_command cmd args query input).args
        = args ++ (if query.isEmpty then [] else [query])
    ∧ (query = "" → create_command cmd args query input
        = ⟨cmd, args, if input.isSome then Stdio.piped else Stdio.null,
            Stdio.piped, Stdio.piped⟩) := by
  unfold create_command Command.new Command.addArgs Command.setStdin Command.setStdout
    Command.setStderr Command.arg
  cases hq : query.isEmpty with
  | true =>
    have hq2 : query = "" := (String.isEmpty_iff query).mp hq
    simp [hq2]
  | false =>
    have hq2 : ¬ query = "" := fun h => by
      rw [h] at hq
      exact absurd hq (by decide)
    simp [hq, hq2]

/-- C9 (witness): with a captured stdin and empty query the command is
the original invocation with piped stdin; the query `q` is appended when
non-empty. -/
theorem createCommand_spec_witness :
    create_command "grep" ["-i"] "" (some [97])
      = ⟨"grep", ["-i"], Stdio.piped, Stdio.piped, Stdio.piped⟩
    ∧ (create_command "grep" ["-i"] "q" none).args = ["-i", "q"] := by
  refine ⟨(createCommand_spec "grep" ["-i"] "" (some [97])).2.2.2.2.2 rfl, ?_⟩
  · have h := (createCommand_spec "grep" ["-i"] "q" none).2.2.2.2.1
    rw [h]
    rfl

/-! ## Subprocess supervisor (`src/main.rs`, `UiWaitingProcess::start`;
`src/child.rs`, `DroppableChild`)

The worker-thread loop is modelled as an event-trace generator. Each
iteration consumes one spawn outcome from a list (the result of
`command.spawn()`); spawned children are named by distinct pids supplied
with the outcomes. The query channel is modelled by the list of strings
it will deliver, the channel being closed once the list is exhausted.
Rust evaluates the right-hand side of `_child = Some(DroppableChild::new(
command.spawn()?))` before dropping the previous value of `_child`, so
the `spawn` event precedes the `dropped` (kill + reap) event of the
outgoing child; a failed spawn `continue`s with the same query and does
not touch `_child`. `reset` is the `Self::reset_data` call after a
successful spawn, and `recv` is `query_rx.recv()`; when the channel is
closed the loop returns and the held child is dropped. -/

/-- Outcome of one `command.spawn()` call: a new process with the given
pid, or a spawn error. -/
inductive SpawnOutcome
  | ok (pid : Nat)
  | fail
deriving DecidableEq

/-- Events of the supervisor loop, in program order. -/
inductive SupEvent
  | spawn (pid : Nat) (q : String)
  | spawnFail (q : String)
  | dropped (pid : Nat)
  | reset
  | recv (q : String)
deriving DecidableEq

/-- The supervisor loop of `UiWaitingProcess::start`: `cur` is the child
held in `_child`, `q` the current query. -/
def supRun : List SpawnOutcome → List String → Option Nat → String → List SupEvent
  | [], _, _, _ => []
  | .fail :: outs, qs, cur, q => .spawnFail q :: supRun outs qs cur q
  | .ok pid :: outs, qs, cur, q =>
    .spawn pid q ::
      ((match cur with
        | some old => [SupEvent.dropped old]
        | none => []) ++
        SupEvent.reset ::
          (match qs with
          | [] => [SupEvent.dropped pid]
          | q2 :: qs2 => SupEvent.recv q2 :: supRun outs qs2 (some pid) q2))

/-- Number of live (spawned, not yet killed-and-reaped) children after
an event, given the count before it. -/
def aliveAfter (n : Nat) : SupEvent → Nat
  | .spawn _ _ => n + 1
  | .dropped _ => n - 1
  | _ => n

/-- The largest number of simultaneously live children at any instant
along a trace, starting from `n` live children. -/
def maxAlive (n : Nat) : List SupEvent → Nat
  | [] => n
  | e :: t => max (aliveAfter n e) (maxAlive (aliveAfter n e) t)

/-- The number of live children held before an iteration: one when a
child handle is in the slot, none otherwise. -/
def curCount : Option Nat → Nat
  | some _ => 1
  | none => 0

/-- C1 (counterexample): two successful spawns separated by one query
update. After the update the loop spawns child 2 while child 1 is still
live and only then drops child 1, so two children are live at one
instant — the outgoing child is not killed before the new spawn, and the
at-most-one invariant fails. -/
theorem supervisor_claim_counterexample :
    supRun [SpawnOutcome.ok 1, SpawnOutcome.ok 2] ["a"] none ""
      = [SupEvent.spawn 1 "", SupEvent.reset, SupEvent.recv "a",
          SupEvent.spawn 2 "a", SupEvent.dropped 1, SupEvent.reset, SupEvent.dropped 2]
    ∧ ¬ (maxAlive 0 (supRun [SpawnOutcome.ok 1, SpawnOutcome.ok 2] ["a"] none "") ≤ 1) := by
  constructor
  · rfl
  · decide

/-- Checks that at every point where a query update is received, at most
`bound` children are live. -/
def recvWithin (bound : Nat) : Nat → List SupEvent → Bool
  | _, [] => true
  | n, e :: t =>
    (match e with
      | SupEvent.recv _ => Nat.ble (aliveAfter n e) bound
      | _ => true) && recvWithin bound (aliveAfter n e) t

/-- Checks that whenever a spawn happens while a child is live, the very
next event kills and reaps that outgoing child. -/
def killRightAfterSpawn : Nat → List SupEvent → Bool
  | _, [] => true
  | n, SupEvent.spawn _ _ :: t =>
    if n = 0 then killRightAfterSpawn 1 t
    else
      (match t with
        | SupEvent.dropped _ :: t2 => killRightAfterSpawn 1 t2
        | _ => false)
  | n, SupEvent.dropped _ :: t => killRightAfterSpawn (n - 1) t
  | n, _ :: t => killRightAfterSpawn n t

/-- C1 (amended): on every query update that arrives while a child is
live, the supervisor spawns the new child first and kills and reaps the
outgoing child immediately afterwards, before resetting the buffer and
before receiving any further query; consequently at most two child
processes are live at any instant, and at most one is live at every
moment a query update is received. -/
theorem supervisor_amended (outs : List SpawnOutcome) (qs : List String)
    (cur : Option Nat) (q : String) :
    maxAlive (curCount cur) (supRun outs qs cur q) ≤ 2
    ∧ recvWithin 1 (curCount cur) (supRun outs qs cur q) = true
    ∧ killRightAfterSpawn (curCount cur) (supRun outs qs cur q) = true := by
  induction outs generalizing qs cur q with
  | nil =>
    simp only [supRun, maxAlive, recvWithin, killRightAfterSpawn]
    cases cur <;> simp [curCount]
  | cons o outs ih =>
    cases o with
    | fail =>
      have h := ih qs cur q
      simp only [supRun, maxAlive, recvWithin, killRightAfterSpawn, aliveAfter]
      cases cur <;>
        simpa [curCount, maxAlive, recvWithin, killRightAfterSpawn, aliveAfter] using h
    | ok pid =>
      cases cur with
      | none =>
        cases qs with
        | nil =>
          simp [supRun, maxAlive, recvWithin, killRightAfterSpawn, aliveAfter, curCount]
        | cons q2 qs2 =>
          have h := ih qs2 (some pid) q2
          simpa [supRun, maxAlive, recvWithin, killRightAfterSpawn, aliveAfter, curCount]
            using h
      | some old =>
        cases qs with
        | nil =>
          simp [supRun, maxAlive, recvWithin, killRightAfterSpawn, aliveAfter, curCount]
        | cons q2 qs2 =>
          have h := ih qs2 (some pid) q2
          simpa [supRun, maxAlive, recvWithin, killRightAfterSpawn, aliveAfter, curCount]
            using h

/-- Checks the claim's spawn-failure discipline: after a spawn failure,
no further spawn attempt (success or failure) may occur until a query
update has been received. -/
def waitsAfterFailMode : Bool → List SupEvent → Bool
  | _, [] => true
  | false, SupEvent.spawnFail _ :: t => waitsAfterFailMode true t
  | false, _ :: t => waitsAfterFailMode false t
  | true, SupEvent.recv _ :: t => waitsAfterFailMode false t
  | true, SupEvent.spawn _ _ :: _ => false
  | true, SupEvent.spawnFail _ :: _ => false
  | true, _ :: t => waitsAfterFailMode true t

/-- Checks the claim's spawn-failure discipline starting outside any
failure window. -/
def waitsAfterFail (l : List SupEvent) : Bool := waitsAfterFailMode false l

/-- C5 (counterexample): a failed spawn followed by a successful one,
with no query update in between. The loop retries spawning the same
(empty) query immediately after the failure — without resetting the
buffer and without waiting on the query channel — so the claimed
wait-for-next-query discipline is violated. -/
theorem supervisor_spawn_fail_counterexample :
    supRun [SpawnOutcome.fail, SpawnOutcome.ok 1] [] none ""
      = [SupEvent.spawnFail "", SupEvent.spawn 1 "", SupEvent.reset, SupEvent.dropped 1]
    ∧ waitsAfterFail (supRun [SpawnOutcome.fail, SpawnOutcome.ok 1] [] none "") = false := by
  constructor
  · rfl
  · decide

/-- Checks the code's actual spawn-failure discipline: immediately after
every spawn failure comes the next spawn attempt (successful or not),
and it carries the same query — no reset and no query receive occur in
between. -/
def failThenRetry : List SupEvent → Bool
  | [] => true
  | SupEvent.spawnFail q :: t =>
    (match t with
      | [] => true
      | SupEvent.spawn _ q2 :: _ => q2 == q
      | SupEvent.spawnFail q2 :: _ => q2 == q
      | _ => false) && failThenRetry t
  | _ :: t => failThenRetry t

/-- C5 (amended): if spawning a child fails, the supervisor does not
reset the OutputBuffer and does not wait for the next query string; it
immediately retries spawning with the same query (the very next event
after a spawn failure is a spawn attempt carrying the same query). -/
theorem supervisor_spawn_fail_amended (outs : List SpawnOutcome) (qs : List String)
    (cur : Option Nat) (q : String) :
    failThenRetry (supRun outs qs cur q) = true := by
  induction outs generalizing qs cur q with
  | nil => rfl
  | cons o outs ih =>
    cases o with
    | fail =>
      have h := ih qs cur q
      cases houts : outs with
      | nil => simp [supRun, failThenRetry]
      | cons o2 outs2 =>
        cases o2 with
        | fail =>
          rw [houts] at h
          simpa [supRun, failThenRetry] using h
        | ok pid =>
          rw [houts] at h
          simpa [supRun, failThenRetry] using h
    | ok pid =>
      cases cur with
      | none =>
        cases qs with
        | nil => simp [supRun, failThenRetry]
        | cons q2 qs2 => simpa [supRun, failThenRetry] using ih qs2 (some pid) q2
      | some old =>
        cases qs with
        | nil => simp [supRun, failThenRetry]
        | cons q2 qs2 => simpa [supRun, failThenRetry] using ih qs2 (some pid) q2

/-! ## OutputBuffer resets (`src/main.rs`, `UiWaitingProcess::read_child_stream`)

`read_child_stream` is modelled on the list of successful reads a stream
delivers (each a chunk of bytes); an empty chunk is the read returning
size 0, which breaks the loop. The function is called once for the
child's stdout and then once for its stderr, each call with its own
fresh `has_read` flag, after the supervisor's reset at spawn time. -/

/-- Buffer events emitted while reading one stream: a reset of the
shared buffer or an append of a chunk. -/
inductive BufEvent
  | reset
  | push (chunk : List Nat)
deriving DecidableEq

/-- The loop of `read_child_stream`: stop at a zero-size read; reset the
buffer before the first pushed chunk; push every chunk. -/
def readStreamEvents : Bool → List (List Nat) → List BufEvent
  | _, [] => []
  | hasRead, c :: rest =>
    if c.isEmpty then []
    else
      (if hasRead then [BufEvent.push c] else [BufEvent.reset, BufEvent.push c])
        ++ readStreamEvents true rest

/-- Buffer events for one supervised child: the supervisor resets the
buffer right after spawning, then the reader thread drains stdout and
then stderr. -/
def childBufEvents (outChunks errChunks : List (List Nat)) : List BufEvent :=
  BufEvent.reset :: (readStreamEvents false outChunks ++ readStreamEvents false errChunks)

/-- Number of buffer resets in a trace. -/
def countResets (l : List BufEvent) : Nat :=
  l.countP (fun e => match e with | BufEvent.reset => true | _ => false)

/-- Whether a stream's first read delivers at least one byte (so the
reset-on-first-byte fires for it). -/
def firstReadNonempty : List (List Nat) → Bool
  | [] => false
  | c :: _ => !c.isEmpty

/-- C4 (counterexample): a child that writes one chunk to stdout and one
chunk to stderr resets the shared buffer three times — at spawn, at the
first stdout byte, and again at the first stderr byte (each
`read_child_stream` call has its own first-read flag) — not exactly
twice as claimed. -/
theorem outputBuffer_reset_counterexample :
    countResets (childBufEvents [[0x61]] [[0x62]]) = 3
    ∧ ¬ (countResets (childBufEvents [[0x61]] [[0x62]]) = 2) := by decide

/-- Helper: once the first-read flag is set, a stream reader never
resets the buffer again. -/
theorem countResets_readStream_true :
    ∀ chunks : List (List Nat),
      countResets (readStreamEvents true chunks) = 0 := by
  intro chunks
  induction chunks with
  | nil => rfl
  | cons c rest ih =>
    cases hc : c.isEmpty with
    | true => simp [readStreamEvents, hc, countResets]
    | false =>
      simp only [readStreamEvents, hc, Bool.false_eq_true, if_false, if_true]
      simpa [countResets] using ih

/-- Helper: a fresh stream reader resets the buffer exactly once if its
first read delivers bytes, and never otherwise. -/
theorem countResets_readStream_false (chunks : List (List Nat)) :
    countResets (readStreamEvents false chunks)
      = (if firstReadNonempty chunks then 1 else 0) := by
  cases chunks with
  | nil => rfl
  | cons c rest =>
    cases hc : c.isEmpty with
    | true => simp [readStreamEvents, firstReadNonempty, hc, countResets]
    | false =>
      simp [readStreamEvents, firstReadNonempty, hc, countResets,
        List.countP_append]
      have h := countResets_readStream_true rest
      simpa [countResets] using h

/-- C4 (amended): for each supervised child the shared OutputBuffer is
reset once when the child is spawned, once more when the first byte
arrives from the child's stdout (if it produces any), and once more when
the first byte arrives from its stderr (read after stdout reaches
end-of-file, if it produces any) — so between one and three times, the
two first-byte resets firing independently per stream, rather than
exactly twice. -/
theorem outputBuffer_reset_amended (outChunks errChunks : List (List Nat)) :
    countResets (childBufEvents outChunks errChunks)
      = 1 + (if firstReadNonempty outChunks then 1 else 0)
          + (if firstReadNonempty errChunks then 1 else 0) := by
  simp only [childBufEvents, countResets, List.countP_cons, List.countP_append]
  have ho := countResets_readStream_false outChunks
  have he := countResets_readStream_false errChunks
  simp only [countResets] at ho he
  rw [ho, he]
  split <;> split <;> rfl
